import Mathlib

/-!
Shallow embedding of the reconciliation engine of
`src/streamlit_app_english.py` (class `ExpenseReconciler`), together with
theorems settling the specification claims about it.

Conventions of the embedding:
* dates are whole days (`ℤ`); `(cap_row['date'] - job_row['date']).days`
  becomes integer subtraction;
* monetary amounts, scores and qualities are `ℚ`;
* a Python `ZeroDivisionError` raised inside `_calculate_match_quality`
  is modelled by `Option`/`Except` failure values;
* Python's stable `list.sort(key=..., reverse=True)` is modelled by a
  stable descending insertion sort (the output of a stable sort under a
  total preorder is unique, so any stable sort is a faithful model).
-/

namespace Reconciler

/-- Run parameters of `ExpenseReconciler.__init__` (lines 24-27):
`tolerance_amount`, `tolerance_days`, `check_person`. -/
structure Config where
  toleranceAmount : ℚ
  toleranceDays : ℕ
  checkPerson : Bool
deriving DecidableEq, Repr

/-- One normalized ledger row as produced by the loaders: columns
`date`, `amount`, `description`, `person`, `card_no`, keyed by the
DataFrame index `idx` (unique row label used by `iterrows`). -/
structure Rec where
  idx : ℕ
  date : ℤ
  amount : ℚ
  description : String
  person : String
  cardNo : String
deriving DecidableEq, Repr

/-- The match dictionary appended at lines 219-236 of `find_matches`. -/
structure Candidate where
  capIdx : ℕ
  jobIdx : ℕ
  capDate : ℤ
  jobDate : ℤ
  capAmount : ℚ
  jobAmount : ℚ
  capDesc : String
  jobDesc : String
  capPerson : String
  jobPerson : String
  capCardNo : String
  dateDiff : ℕ
  amountDiff : ℚ
  personMatch : Bool
  personMatchQuality : ℚ
  matchQuality : ℚ
deriving DecidableEq, Repr

/-- Python's substring test `a in b` on strings (line 208), as contiguous
containment of the character sequence. -/
def containsSub (a b : String) : Bool :=
  decide (List.IsInfix a.toList b.toList)

/-- The whitespace characters removed by Python's `str.strip()`
(ASCII range: space, tab, newline, carriage return, vertical tab,
form feed). -/
def pyIsSpace (c : Char) : Bool :=
  c = ' ' || c = '\t' || c = '\n' || c = '\r' ||
    c = Char.ofNat 11 || c = Char.ofNat 12

/-- Python `str.strip()`: drop whitespace from both ends. -/
def pyStrip (s : String) : String :=
  String.mk (((s.data.dropWhile pyIsSpace).reverse.dropWhile pyIsSpace).reverse)

/-- Python `str.lower()` for the ASCII names this program handles:
lowercase every character. -/
def pyLower (s : String) : String :=
  String.mk (s.data.map Char.toLower)

/-- The person comparison of lines 200-213: strip and lowercase both
names, return `(person_match, person_match_quality)`: exact equality
gives `(True, 1.0)`, substring containment in either direction gives
`(True, 0.8)`, anything else gives `(False, 0.0)`. -/
def personCompare (capP jobP : String) : Bool × ℚ :=
  let c := pyLower (pyStrip capP)
  let j := pyLower (pyStrip jobP)
  if c = j then (true, 1)
  else if containsSub c j || containsSub j c then (true, 8/10)
  else (false, 0)

/-- Lines 196-213 of `find_matches`: `person_match` and
`person_match_quality` start as `(True, 1.0)` and are overwritten by the
comparison only when `check_person` is on and neither side's person
column is the `'N/A'` sentinel. -/
def personEval (cfg : Config) (capP jobP : String) : Bool × ℚ :=
  if cfg.checkPerson = true ∧ capP ≠ "N/A" ∧ jobP ≠ "N/A" then
    personCompare capP jobP
  else (true, 1)

/-- The value `max(0, (tolerance_days - date_diff) / tolerance_days)`
of line 256, for a nonzero tolerance. -/
def dScore (cfg : Config) (dd : ℕ) : ℚ :=
  max 0 (((cfg.toleranceDays : ℚ) - (dd : ℚ)) / (cfg.toleranceDays : ℚ))

/-- The value `max(0, (tolerance_amount - amount_diff) / tolerance_amount)`
of line 257, for a nonzero tolerance. -/
def aScore (cfg : Config) (ad : ℚ) : ℚ :=
  max 0 ((cfg.toleranceAmount - ad) / cfg.toleranceAmount)

/-- `_calculate_match_quality` (lines 254-264).  Python raises
`ZeroDivisionError` when `tolerance_days` is zero (line 256), and
otherwise when `tolerance_amount` is zero (line 257); these failures are
modelled as `none`.  Otherwise the weighted sum is
`0.2/0.4/0.4` when `check_person` is set and `0.3/0.7` when it is not. -/
def calcMatchQuality (cfg : Config) (dd : ℕ) (ad : ℚ) (pmq : ℚ) : Option ℚ :=
  if cfg.toleranceDays = 0 then none
  else if cfg.toleranceAmount = 0 then none
  else some (if cfg.checkPerson then
      dScore cfg dd * (2/10) + aScore cfg ad * (4/10) + pmq * (4/10)
    else
      dScore cfg dd * (3/10) + aScore cfg ad * (7/10))

/-- The body of the nested loop of `find_matches` (lines 188-236) for one
`(cap_row, job_row)` pair: compute the absolute date and amount deltas,
require both within tolerance, evaluate the person gate, and on
`person_match or not check_person` build the match dictionary.
`Except.error` propagates the `ZeroDivisionError` of the quality call,
`Except.ok none` means the pair is skipped, `Except.ok (some c)` means
the candidate `c` is appended. -/
def pairCandidate (cfg : Config) (cap job : Rec) : Except Unit (Option Candidate) :=
  let dd := (cap.date - job.date).natAbs
  let ad := |cap.amount - job.amount|
  if dd ≤ cfg.toleranceDays ∧ ad ≤ cfg.toleranceAmount then
    let pe := personEval cfg cap.person job.person
    if pe.1 || !cfg.checkPerson then
      match calcMatchQuality cfg dd ad pe.2 with
      | none => Except.error ()
      | some q => Except.ok (some
          { capIdx := cap.idx, jobIdx := job.idx, capDate := cap.date,
            jobDate := job.date, capAmount := cap.amount,
            jobAmount := job.amount, capDesc := cap.description,
            jobDesc := job.description, capPerson := cap.person,
            jobPerson := job.person, capCardNo := cap.cardNo,
            dateDiff := dd, amountDiff := ad, personMatch := pe.1,
            personMatchQuality := pe.2, matchQuality := q })
    else Except.ok none
  else Except.ok none

/-- The inner loop of `find_matches` (lines 187-236): one CapitalOne row
against every Jobber row, in row order. -/
def genRow (cfg : Config) (cap : Rec) : List Rec → Except Unit (List Candidate)
  | [] => Except.ok []
  | job :: jobs =>
    match pairCandidate cfg cap job with
    | Except.error e => Except.error e
    | Except.ok none => genRow cfg cap jobs
    | Except.ok (some c) =>
      match genRow cfg cap jobs with
      | Except.error e => Except.error e
      | Except.ok rest => Except.ok (c :: rest)

/-- The outer loop of `find_matches` (lines 186-236): the full candidate
list, in generation order (CapitalOne row-major, Jobber inner). -/
def genCandidates (cfg : Config) : List Rec → List Rec → Except Unit (List Candidate)
  | [], _ => Except.ok []
  | cap :: caps, jobs =>
    match genRow cfg cap jobs with
    | Except.error e => Except.error e
    | Except.ok row =>
      match genCandidates cfg caps jobs with
      | Except.error e => Except.error e
      | Except.ok rest => Except.ok (row ++ rest)

/-- Stable descending insertion of one candidate: `c` is placed before
the first element whose `match_quality` does not exceed `c`'s, so equal
qualities keep their original relative order. -/
def insertCand (c : Candidate) : List Candidate → List Candidate
  | [] => [c]
  | d :: ds =>
    if d.matchQuality ≤ c.matchQuality then c :: d :: ds
    else d :: insertCand c ds

/-- Model of `matches.sort(key=lambda x: x['match_quality'], reverse=True)`
(line 239): a stable sort by quality descending. -/
def sortCands : List Candidate → List Candidate
  | [] => []
  | c :: cs => insertCand c (sortCands cs)

/-- The deduplication pass of lines 242-251: traverse the sorted list
once, accept a candidate exactly when neither its CapitalOne index nor
its Jobber index is already used, and mark both on acceptance. -/
def greedy : List Candidate → List ℕ → List ℕ → List Candidate
  | [], _, _ => []
  | c :: cs, usedCap, usedJob =>
    if c.capIdx ∈ usedCap ∨ c.jobIdx ∈ usedJob then greedy cs usedCap usedJob
    else c :: greedy cs (c.capIdx :: usedCap) (c.jobIdx :: usedJob)

/-- `find_matches` (lines 182-252): generate all candidates, stable-sort
by quality descending, and run the greedy deduplication with initially
empty used sets.  The returned `used_cap_idx` / `used_job_idx` sets of
the Python function are exactly the projections of the result (they are
populated in lockstep with `final_matches`), so only the match list is
returned here. -/
def findMatches (cfg : Config) (caps jobs : List Rec) : Except Unit (List Candidate) :=
  match genCandidates cfg caps jobs with
  | Except.error e => Except.error e
  | Except.ok ms => Except.ok (greedy (sortCands ms) [] [])

/-- The `used_cap_idx` set returned by `find_matches`. -/
def usedCapIdx (ms : List Candidate) : List ℕ := ms.map Candidate.capIdx

/-- The `used_job_idx` set returned by `find_matches`. -/
def usedJobIdx (ms : List Candidate) : List ℕ := ms.map Candidate.jobIdx

/-- The CapitalOne rows reported `MISSING_IN_JOBBER` by
`generate_report_df` (lines 294-295): `idx not in used_cap_idx`. -/
def unmatchedCap (caps : List Rec) (ms : List Candidate) : List Rec :=
  caps.filter (fun r => decide (r.idx ∉ usedCapIdx ms))

/-- The Jobber rows reported `MISSING_IN_CAPITALONE` by
`generate_report_df` (lines 315-316): `idx not in used_job_idx`. -/
def unmatchedJob (jobs : List Rec) (ms : List Candidate) : List Rec :=
  jobs.filter (fun r => decide (r.idx ∉ usedJobIdx ms))

/-- The `card_to_person` table of lines 30-36. -/
def cardToPerson : List (String × String) :=
  [("9265", "Aaron Davidson"), ("4298", "Alex Masuda"),
   ("1725", "Jericho Taylor-Daves"), ("3253", "Jerry Morales"),
   ("2984", "Antonio")]

/-- The possible shapes of a `Card No.` cell reaching `get_person_name`
(line 86): missing (`NaN`), numeric (int or float), or text. -/
inductive CardNo where
  | missing
  | numeric (q : ℚ)
  | text (s : String)
deriving DecidableEq, Repr

/-- Python `int(...)` on a rational value truncates toward zero. -/
def ratTruncInt (q : ℚ) : ℤ := if 0 ≤ q then q.floor else q.ceil

/-- The token string built at line 89:
`str(int(float(card_no)))` for a numeric cell, `str(card_no)` for text,
and no token at all for a missing cell. -/
def cardTokenStr : CardNo → Option String
  | CardNo.missing => none
  | CardNo.numeric q => some (toString (ratTruncInt q))
  | CardNo.text s => some s

/-- `get_person_name` (lines 86-90): missing cell resolves to
`'Unknown'`; otherwise the token is looked up in `card_to_person`, with
fallback `f'Unknown Card {card_str}'`. -/
def getPersonName (cn : CardNo) : String :=
  match cardTokenStr cn with
  | none => "Unknown"
  | some s =>
    match cardToPerson.lookup s with
    | some p => p
    | none => "Unknown Card " ++ s

/-- A record with its `person` column blanked; two records related by
`erasePerson` agree on every engine-relevant field except the person. -/
def erasePerson (r : Rec) : Rec := { r with person := "" }

/-- A candidate with both person display fields blanked. -/
def eraseCandPerson (c : Candidate) : Candidate :=
  { c with capPerson := "", jobPerson := "" }

/-- Concrete single-pair example run (identical $100 records on the same
day, identity checking off) used to instantiate the general theorems. -/
def exCfg : Config := ⟨2, 2, false⟩

/-- CapitalOne row of the example run. -/
def exCap : Rec := ⟨0, 0, 100, "w", "A", "N/A"⟩

/-- Jobber row of the example run. -/
def exJob : Rec := ⟨0, 0, 100, "w", "B", "N/A"⟩

/-- The single candidate the example run produces: zero deltas, full
scores, quality `0.3·1 + 0.7·1 = 1`. -/
def exCand : Candidate :=
  ⟨0, 0, 0, 0, 100, 100, "w", "w", "A", "B", "N/A", 0, 0, true, 1, 1⟩

/-! ### Basic lemmas about the person comparison and the quality formula -/

lemma personCompare_cases (a b : String) :
    personCompare a b = (true, 1) ∨ personCompare a b = (true, 8/10) ∨
      personCompare a b = (false, 0) := by
  unfold personCompare
  by_cases h1 : pyLower (pyStrip a) = pyLower (pyStrip b)
  · simp [h1]
  · by_cases h2 : (containsSub (pyLower (pyStrip a)) (pyLower (pyStrip b)) ||
        containsSub (pyLower (pyStrip b)) (pyLower (pyStrip a))) = true
    · simp [h1, h2]
    · simp [h1, h2]

lemma personEval_cases (cfg : Config) (a b : String) :
    personEval cfg a b = personCompare a b ∨ personEval cfg a b = (true, 1) := by
  unfold personEval
  by_cases h : cfg.checkPerson = true ∧ a ≠ "N/A" ∧ b ≠ "N/A"
  · simp [h]
  · simp [h]

lemma personEval_snd_of_fst {cfg : Config} {a b : String}
    (h : (personEval cfg a b).1 = true) :
    (personEval cfg a b).2 = 1 ∨ (personEval cfg a b).2 = 8/10 := by
  rcases personEval_cases cfg a b with he | he
  · rcases personCompare_cases a b with hc | hc | hc
    · rw [he, hc]
      exact Or.inl rfl
    · rw [he, hc]
      exact Or.inr rfl
    · rw [he, hc] at h
      simp at h
  · rw [he]
    exact Or.inl rfl

lemma calcMatchQuality_eq {cfg : Config} (dd : ℕ) (ad pmq : ℚ)
    (htd : cfg.toleranceDays ≠ 0) (hta : cfg.toleranceAmount ≠ 0) :
    calcMatchQuality cfg dd ad pmq =
      some (if cfg.checkPerson then
          dScore cfg dd * (2/10) + aScore cfg ad * (4/10) + pmq * (4/10)
        else dScore cfg dd * (3/10) + aScore cfg ad * (7/10)) := by
  unfold calcMatchQuality
  rw [if_neg htd, if_neg hta]

/-- Forward evaluation: within both tolerances, with the person gate
passing and the quality call succeeding, the appended candidate. -/
lemma pairCandidate_eq_some (cfg : Config) (cap job : Rec) (q : ℚ)
    (h1 : (cap.date - job.date).natAbs ≤ cfg.toleranceDays)
    (h2 : |cap.amount - job.amount| ≤ cfg.toleranceAmount)
    (h3 : ((personEval cfg cap.person job.person).1 || !cfg.checkPerson) = true)
    (hq : calcMatchQuality cfg (cap.date - job.date).natAbs
      |cap.amount - job.amount| (personEval cfg cap.person job.person).2 = some q) :
    pairCandidate cfg cap job = Except.ok (some
      { capIdx := cap.idx, jobIdx := job.idx, capDate := cap.date,
        jobDate := job.date, capAmount := cap.amount, jobAmount := job.amount,
        capDesc := cap.description, jobDesc := job.description,
        capPerson := cap.person, jobPerson := job.person,
        capCardNo := cap.cardNo, dateDiff := (cap.date - job.date).natAbs,
        amountDiff := |cap.amount - job.amount|,
        personMatch := (personEval cfg cap.person job.person).1,
        personMatchQuality := (personEval cfg cap.person job.person).2,
        matchQuality := q }) := by
  simp only [pairCandidate]
  rw [if_pos ⟨h1, h2⟩, h3, hq]
  rfl

/-- Forward evaluation: within both tolerances but with the person gate
failing, the pair is skipped. -/
lemma pairCandidate_eq_skip (cfg : Config) (cap job : Rec)
    (h3 : ((personEval cfg cap.person job.person).1 || !cfg.checkPerson) = false) :
    pairCandidate cfg cap job = Except.ok none := by
  simp only [pairCandidate]
  by_cases h1 : (cap.date - job.date).natAbs ≤ cfg.toleranceDays ∧
      |cap.amount - job.amount| ≤ cfg.toleranceAmount
  · rw [if_pos h1, h3]
    rfl
  · rw [if_neg h1]

/-- A singleton run whose only pair yields a candidate returns exactly
that candidate as its one match. -/
lemma findMatches_single_some {cfg : Config} {cap job : Rec} {c : Candidate}
    (h : pairCandidate cfg cap job = Except.ok (some c)) :
    genCandidates cfg [cap] [job] = Except.ok [c] ∧
    findMatches cfg [cap] [job] = Except.ok [c] := by
  have hg : genCandidates cfg [cap] [job] = Except.ok [c] := by
    unfold genCandidates genRow
    rw [h]
    rfl
  refine ⟨hg, ?_⟩
  unfold findMatches
  rw [hg]
  simp [sortCands, insertCand, greedy]

/-- Forward evaluation: within both tolerances with the person gate
passing but the quality call failing (zero tolerance), the
`ZeroDivisionError` propagates. -/
lemma pairCandidate_eq_error (cfg : Config) (cap job : Rec)
    (h1 : (cap.date - job.date).natAbs ≤ cfg.toleranceDays)
    (h2 : |cap.amount - job.amount| ≤ cfg.toleranceAmount)
    (h3 : ((personEval cfg cap.person job.person).1 || !cfg.checkPerson) = true)
    (hq : calcMatchQuality cfg (cap.date - job.date).natAbs
      |cap.amount - job.amount| (personEval cfg cap.person job.person).2 = none) :
    pairCandidate cfg cap job = Except.error () := by
  simp only [pairCandidate]
  rw [if_pos ⟨h1, h2⟩, h3, hq]
  rfl

/-- A singleton run whose only pair raises propagates the error through
`find_matches`. -/
lemma findMatches_single_error {cfg : Config} {cap job : Rec}
    (h : pairCandidate cfg cap job = Except.error ()) :
    genCandidates cfg [cap] [job] = Except.error () ∧
    findMatches cfg [cap] [job] = Except.error () := by
  have hg : genCandidates cfg [cap] [job] = Except.error () := by
    unfold genCandidates genRow
    rw [h]
  refine ⟨hg, ?_⟩
  unfold findMatches
  rw [hg]

/-- A singleton run whose only pair is skipped returns no candidates and
no matches. -/
lemma findMatches_single_none {cfg : Config} {cap job : Rec}
    (h : pairCandidate cfg cap job = Except.ok none) :
    genCandidates cfg [cap] [job] = Except.ok [] ∧
    findMatches cfg [cap] [job] = Except.ok [] := by
  have hg : genCandidates cfg [cap] [job] = Except.ok [] := by
    unfold genCandidates genRow
    rw [h]
    rfl
  refine ⟨hg, ?_⟩
  unfold findMatches
  rw [hg]
  rfl

/-- Characterization of a successfully appended candidate: all its
fields are determined by the two rows, the deltas are within tolerance,
and the person gate passed. -/
lemma pairCandidate_ok_some {cfg : Config} {cap job : Rec} {c : Candidate}
    (h : pairCandidate cfg cap job = Except.ok (some c)) :
    c.capIdx = cap.idx ∧ c.jobIdx = job.idx ∧
    c.dateDiff = (cap.date - job.date).natAbs ∧
    c.amountDiff = |cap.amount - job.amount| ∧
    c.dateDiff ≤ cfg.toleranceDays ∧ c.amountDiff ≤ cfg.toleranceAmount ∧
    c.personMatch = (personEval cfg cap.person job.person).1 ∧
    c.personMatchQuality = (personEval cfg cap.person job.person).2 ∧
    calcMatchQuality cfg c.dateDiff c.amountDiff c.personMatchQuality =
      some c.matchQuality ∧
    (c.personMatch || !cfg.checkPerson) = true := by
  unfold pairCandidate at h
  by_cases h1 : (cap.date - job.date).natAbs ≤ cfg.toleranceDays ∧
      |cap.amount - job.amount| ≤ cfg.toleranceAmount
  · simp only [if_pos h1] at h
    by_cases h2 : ((personEval cfg cap.person job.person).1 || !cfg.checkPerson) = true
    · simp only [h2, if_true] at h
      rcases hq : calcMatchQuality cfg (cap.date - job.date).natAbs
          |cap.amount - job.amount| (personEval cfg cap.person job.person).2 with _ | q
      · rw [hq] at h
        cases h
      · rw [hq] at h
        injection h with h
        injection h with h
        subst h
        refine ⟨rfl, rfl, rfl, rfl, h1.1, h1.2, rfl, rfl, hq, h2⟩
    · simp only [h2] at h
      simp at h
  · simp only [if_neg h1] at h
    cases h

lemma mem_genRow {cfg : Config} {cap : Rec} :
    ∀ {jobs : List Rec} {row : List Candidate},
      genRow cfg cap jobs = Except.ok row → ∀ c ∈ row,
      ∃ job ∈ jobs, pairCandidate cfg cap job = Except.ok (some c) := by
  intro jobs
  induction jobs with
  | nil =>
    intro row h c hc
    unfold genRow at h
    injection h with h
    subst h
    cases hc
  | cons job jobs ih =>
    intro row h c hc
    unfold genRow at h
    rcases hp : pairCandidate cfg cap job with e | o
    · rw [hp] at h
      cases h
    · rw [hp] at h
      rcases o with _ | c0
      · rcases ih h c hc with ⟨j, hj, hjp⟩
        exact ⟨j, List.mem_cons_of_mem _ hj, hjp⟩
      · rcases hr : genRow cfg cap jobs with e | rest
        · rw [hr] at h
          cases h
        · rw [hr] at h
          injection h with h
          subst h
          rcases hc with _ | hc
          · exact ⟨job, List.mem_cons_self _ _, hp⟩
          · rcases ih hr c (by assumption) with ⟨j, hj, hjp⟩
            exact ⟨j, List.mem_cons_of_mem _ hj, hjp⟩

lemma mem_genCandidates {cfg : Config} :
    ∀ {caps jobs : List Rec} {cands : List Candidate},
      genCandidates cfg caps jobs = Except.ok cands → ∀ c ∈ cands,
      ∃ cap ∈ caps, ∃ job ∈ jobs, pairCandidate cfg cap job = Except.ok (some c) := by
  intro caps
  induction caps with
  | nil =>
    intro jobs cands h c hc
    unfold genCandidates at h
    injection h with h
    subst h
    cases hc
  | cons cap caps ih =>
    intro jobs cands h c hc
    unfold genCandidates at h
    rcases hr : genRow cfg cap jobs with e | row
    · rw [hr] at h
      cases h
    · rw [hr] at h
      rcases hg : genCandidates cfg caps jobs with e | rest
      · rw [hg] at h
        cases h
      · rw [hg] at h
        injection h with h
        subst h
        rcases List.mem_append.1 hc with hrow | hrest
        · rcases mem_genRow hr c hrow with ⟨j, hj, hjp⟩
          exact ⟨cap, List.mem_cons_self _ _, j, hj, hjp⟩
        · rcases ih hg c hrest with ⟨cp, hcp, j, hj, hjp⟩
          exact ⟨cp, List.mem_cons_of_mem _ hcp, j, hj, hjp⟩

/-! ### The stable sort: permutation, sortedness, stability -/

lemma insertCand_perm (c : Candidate) (l : List Candidate) :
    (insertCand c l).Perm (c :: l) := by
  induction l with
  | nil => exact List.Perm.refl _
  | cons d ds ih =>
    unfold insertCand
    by_cases h : d.matchQuality ≤ c.matchQuality
    · rw [if_pos h]
    · rw [if_neg h]
      exact (ih.cons d).trans (List.Perm.swap c d ds)

lemma sortCands_perm (l : List Candidate) : (sortCands l).Perm l := by
  induction l with
  | nil => exact List.Perm.refl _
  | cons c cs ih =>
    exact (insertCand_perm c (sortCands cs)).trans (ih.cons c)

lemma mem_insertCand {x c : Candidate} {l : List Candidate} :
    x ∈ insertCand c l ↔ x = c ∨ x ∈ l := by
  rw [(insertCand_perm c l).mem_iff, List.mem_cons]

lemma insertCand_sorted {c : Candidate} {l : List Candidate}
    (h : List.Pairwise (fun a b => b.matchQuality ≤ a.matchQuality) l) :
    List.Pairwise (fun a b => b.matchQuality ≤ a.matchQuality) (insertCand c l) := by
  induction l with
  | nil => simp [insertCand]
  | cons d ds ih =>
    rw [List.pairwise_cons] at h
    unfold insertCand
    by_cases hdc : d.matchQuality ≤ c.matchQuality
    · rw [if_pos hdc]
      refine List.pairwise_cons.2 ⟨?_, List.pairwise_cons.2 ⟨h.1, h.2⟩⟩
      intro x hx
      rcases List.mem_cons.1 hx with hx | hx
      · rw [hx]
        exact hdc
      · exact le_trans (h.1 x hx) hdc
    · rw [if_neg hdc]
      refine List.pairwise_cons.2 ⟨?_, ih h.2⟩
      intro x hx
      rcases mem_insertCand.1 hx with hx | hx
      · rw [hx]
        exact le_of_not_le hdc
      · exact h.1 x hx

lemma sortCands_sorted (l : List Candidate) :
    List.Pairwise (fun a b => b.matchQuality ≤ a.matchQuality) (sortCands l) := by
  induction l with
  | nil => simp [sortCands]
  | cons c cs ih => exact insertCand_sorted ih

lemma insertCand_filter (c : Candidate) (l : List Candidate) (v : ℚ) :
    (insertCand c l).filter (fun d => decide (d.matchQuality = v)) =
      if c.matchQuality = v then
        c :: l.filter (fun d => decide (d.matchQuality = v))
      else l.filter (fun d => decide (d.matchQuality = v)) := by
  induction l with
  | nil =>
    by_cases hcv : c.matchQuality = v <;>
      simp [insertCand, List.filter_cons, hcv]
  | cons d ds ih =>
    unfold insertCand
    by_cases hdc : d.matchQuality ≤ c.matchQuality
    · rw [if_pos hdc]
      by_cases hcv : c.matchQuality = v <;>
        simp [List.filter_cons, hcv]
    · rw [if_neg hdc]
      by_cases hcv : c.matchQuality = v
      · have hdv : d.matchQuality ≠ v := by
          intro hd
          exact hdc (le_of_eq (hd.trans hcv.symm))
        simp [List.filter_cons, hdv, hcv, ih]
      · by_cases hdv : d.matchQuality = v <;>
          simp [List.filter_cons, hdv, hcv, ih]

lemma sortCands_filter (l : List Candidate) (v : ℚ) :
    (sortCands l).filter (fun d => decide (d.matchQuality = v)) =
      l.filter (fun d => decide (d.matchQuality = v)) := by
  induction l with
  | nil => rfl
  | cons c cs ih =>
    show (insertCand c (sortCands cs)).filter _ = _
    rw [insertCand_filter]
    by_cases hcv : c.matchQuality = v
    · rw [if_pos hcv, ih, List.filter_cons]
      simp [hcv]
    · rw [if_neg hcv, ih, List.filter_cons]
      simp [hcv]

/-- Two lists that are both sorted by quality descending and have the
same elements at every quality level are equal: the stable sort of the
reference algorithm is uniquely determined. -/
lemma sorted_fiber_unique :
    ∀ s1 s2 : List Candidate,
      List.Pairwise (fun a b => b.matchQuality ≤ a.matchQuality) s1 →
      List.Pairwise (fun a b => b.matchQuality ≤ a.matchQuality) s2 →
      (∀ v : ℚ, s1.filter (fun d => decide (d.matchQuality = v)) =
        s2.filter (fun d => decide (d.matchQuality = v))) →
      s1 = s2 := by
  intro s1
  induction s1 with
  | nil =>
    intro s2 h1 h2 hf
    cases s2 with
    | nil => rfl
    | cons b t2 =>
      have hb := hf b.matchQuality
      rw [List.filter_cons] at hb
      simp at hb
  | cons a t1 ih =>
    intro s2 h1 h2 hf
    cases s2 with
    | nil =>
      have ha := hf a.matchQuality
      rw [List.filter_cons] at ha
      simp at ha
    | cons b t2 =>
      have hmax2 : ∀ x ∈ b :: t2, x.matchQuality ≤ b.matchQuality := by
        intro x hx
        rcases List.mem_cons.1 hx with hx | hx
        · rw [hx]
        · exact (List.pairwise_cons.1 h2).1 x hx
      have hmax1 : ∀ x ∈ a :: t1, x.matchQuality ≤ a.matchQuality := by
        intro x hx
        rcases List.mem_cons.1 hx with hx | hx
        · rw [hx]
        · exact (List.pairwise_cons.1 h1).1 x hx
      have hain : a ∈ (b :: t2).filter (fun d => decide (d.matchQuality = a.matchQuality)) := by
        rw [← hf]
        rw [List.filter_cons]
        simp
      have hbin : b ∈ (a :: t1).filter (fun d => decide (d.matchQuality = b.matchQuality)) := by
        rw [hf]
        rw [List.filter_cons]
        simp
      have hab : a.matchQuality = b.matchQuality :=
        le_antisymm (hmax2 a (List.mem_filter.1 hain).1)
          (hmax1 b (List.mem_filter.1 hbin).1)
      have hfa := hf a.matchQuality
      rw [List.filter_cons, List.filter_cons] at hfa
      simp only [decide_eq_true_eq, if_pos rfl, hab.symm, if_pos] at hfa
      injection hfa with hhead htail
      have htails : ∀ v : ℚ, t1.filter (fun d => decide (d.matchQuality = v)) =
          t2.filter (fun d => decide (d.matchQuality = v)) := by
        intro v
        by_cases hv : v = a.matchQuality
        · rw [hv]
          exact htail
        · have hfv := hf v
          rw [List.filter_cons, List.filter_cons] at hfv
          rw [if_neg, if_neg] at hfv
          · exact hfv
          · simp only [decide_eq_true_eq]
            rw [← hab]
            exact fun h => hv h.symm
          · simp only [decide_eq_true_eq]
            exact fun h => hv h.symm
      rw [hhead, ih t2 (List.pairwise_cons.1 h1).2 (List.pairwise_cons.1 h2).2 htails]

/-! ### The greedy assignment pass -/

lemma greedy_subset :
    ∀ (l : List Candidate) (u v : List ℕ) (c : Candidate),
      c ∈ greedy l u v → c ∈ l := by
  intro l
  induction l with
  | nil =>
    intro u v c h
    simp [greedy] at h
  | cons d ds ih =>
    intro u v c h
    unfold greedy at h
    by_cases hd : d.capIdx ∈ u ∨ d.jobIdx ∈ v
    · rw [if_pos hd] at h
      exact List.mem_cons_of_mem _ (ih _ _ _ h)
    · rw [if_neg hd] at h
      rcases List.mem_cons.1 h with h | h
      · rw [h]
        exact List.mem_cons_self _ _
      · exact List.mem_cons_of_mem _ (ih _ _ _ h)

lemma greedy_avoid :
    ∀ (l : List Candidate) (u v : List ℕ) (c : Candidate),
      c ∈ greedy l u v → c.capIdx ∉ u ∧ c.jobIdx ∉ v := by
  intro l
  induction l with
  | nil =>
    intro u v c h
    simp [greedy] at h
  | cons d ds ih =>
    intro u v c h
    unfold greedy at h
    by_cases hd : d.capIdx ∈ u ∨ d.jobIdx ∈ v
    · rw [if_pos hd] at h
      exact ih _ _ _ h
    · rw [if_neg hd] at h
      push_neg at hd
      rcases List.mem_cons.1 h with h | h
      · rw [h]
        exact hd
      · obtain ⟨h1, h2⟩ := ih _ _ _ h
        exact ⟨fun hx => h1 (List.mem_cons_of_mem _ hx),
          fun hx => h2 (List.mem_cons_of_mem _ hx)⟩

lemma greedy_nodup :
    ∀ (l : List Candidate) (u v : List ℕ),
      ((greedy l u v).map Candidate.capIdx).Nodup ∧
      ((greedy l u v).map Candidate.jobIdx).Nodup := by
  intro l
  induction l with
  | nil =>
    intro u v
    simp [greedy]
  | cons d ds ih =>
    intro u v
    unfold greedy
    by_cases hd : d.capIdx ∈ u ∨ d.jobIdx ∈ v
    · rw [if_pos hd]
      exact ih u v
    · rw [if_neg hd]
      obtain ⟨ih1, ih2⟩ := ih (d.capIdx :: u) (d.jobIdx :: v)
      constructor
      · rw [List.map_cons, List.nodup_cons]
        refine ⟨?_, ih1⟩
        intro hmem
        rcases List.mem_map.1 hmem with ⟨c, hc, hcc⟩
        exact (greedy_avoid _ _ _ _ hc).1 (by rw [hcc]; exact List.mem_cons_self _ _)
      · rw [List.map_cons, List.nodup_cons]
        refine ⟨?_, ih2⟩
        intro hmem
        rcases List.mem_map.1 hmem with ⟨c, hc, hcc⟩
        exact (greedy_avoid _ _ _ _ hc).2 (by rw [hcc]; exact List.mem_cons_self _ _)

/-- Inversion of a successful `find_matches` run into its two stages. -/
lemma findMatches_ok_elim {cfg : Config} {caps jobs : List Rec}
    {ms : List Candidate} (h : findMatches cfg caps jobs = Except.ok ms) :
    ∃ cands, genCandidates cfg caps jobs = Except.ok cands ∧
      ms = greedy (sortCands cands) [] [] := by
  unfold findMatches at h
  rcases hg : genCandidates cfg caps jobs with e | cands
  · rw [hg] at h
    cases h
  · rw [hg] at h
    injection h with h
    exact ⟨cands, rfl, h.symm⟩

/-- Counting records whose index lies in a duplicate-free index list:
with unique record ids, each listed index is hit exactly once. -/
lemma length_filter_idx_mem :
    ∀ (caps : List Rec) (u : List ℕ),
      (caps.map Rec.idx).Nodup → u.Nodup →
      (∀ x ∈ u, x ∈ caps.map Rec.idx) →
      (caps.filter (fun r => decide (r.idx ∈ u))).length = u.length := by
  intro caps
  induction caps with
  | nil =>
    intro u hcap hu hsub
    have hu0 : u = [] := by
      cases u with
      | nil => rfl
      | cons x xs =>
        have := hsub x (List.mem_cons_self _ _)
        simp at this
    rw [hu0]
    rfl
  | cons r caps ih =>
    intro u hcap hu hsub
    rw [List.map_cons, List.nodup_cons] at hcap
    rw [List.filter_cons]
    by_cases hr : r.idx ∈ u
    · rw [if_pos (by simp [hr]), List.length_cons]
      have hcongr : caps.filter (fun r2 => decide (r2.idx ∈ u)) =
          caps.filter (fun r2 => decide (r2.idx ∈ u.erase r.idx)) := by
        apply List.filter_congr
        intro a ha
        have hne : a.idx ≠ r.idx := by
          intro he
          exact hcap.1 (he ▸ List.mem_map_of_mem Rec.idx ha)
        rw [decide_eq_decide]
        rw [List.Nodup.mem_erase_iff hu]
        exact ⟨fun hx => ⟨hne, hx⟩, fun hx => hx.2⟩
      rw [hcongr, ih (u.erase r.idx) hcap.2 (hu.erase _) ?_]
      · exact List.length_erase_add_one hr
      · intro x hx
        have hx2 := (List.Nodup.mem_erase_iff hu).1 hx
        rcases List.mem_cons.1 (hsub x hx2.2) with h | h
        · exact absurd h hx2.1
        · exact h
    · rw [if_neg (by simp [hr])]
      apply ih u hcap.2 hu
      intro x hx
      rcases List.mem_cons.1 (hsub x hx) with h | h
      · rw [h] at hx
        exact absurd hx hr
      · exact h

/-- The example single-pair run evaluated through both stages. -/
lemma exRun :
    genCandidates exCfg [exCap] [exJob] = Except.ok [exCand] ∧
    findMatches exCfg [exCap] [exJob] = Except.ok [exCand] := by
  have habs : |(100 : ℚ) - 100| = 0 := by norm_num
  have hq : calcMatchQuality exCfg ((0 : ℤ) - 0).natAbs |(100 : ℚ) - 100|
      (personEval exCfg "A" "B").2 = some 1 := by
    show calcMatchQuality exCfg 0 |(100 : ℚ) - 100| 1 = some 1
    rw [habs, calcMatchQuality_eq 0 0 1 (by decide) (by norm_num [exCfg])]
    norm_num [dScore, aScore, exCfg]
  have h := pairCandidate_eq_some exCfg exCap exJob 1 (by decide)
    (by norm_num [exCap, exJob, exCfg]) (by rfl) hq
  obtain ⟨hg, hf⟩ := findMatches_single_some h
  constructor
  · rw [hg]
    congr 1
    congr 1
    congr 1
  · rw [hf]
    congr 1
    congr 1
    congr 1

/-! ### Claims C1, C2, C3, C7, C8, C9 -/

/-- C1 (counterexample): with `check_person` on, the pair
(Alice, day 0, $100) / (Bob, day 0, $100) has both deltas within the
tolerances (2 days, $2) and its identity comparison yields `(False, 0.0)`,
yet `find_matches` generates no candidate at all and returns no match,
although no competing candidate claims either record.  This refutes the
spec sentence that a zero-identity candidate is never excluded. -/
theorem claim1_counterexample :
    ((0 : ℤ) - 0).natAbs ≤ (2 : ℕ) ∧ |(100 : ℚ) - 100| ≤ (2 : ℚ) ∧
    personCompare "Alice" "Bob" = (false, 0) ∧
    genCandidates ⟨2, 2, true⟩ [⟨0, 0, 100, "d", "Alice", "N/A"⟩]
      [⟨1, 0, 100, "d", "Bob", "N/A"⟩] = Except.ok [] ∧
    findMatches ⟨2, 2, true⟩ [⟨0, 0, 100, "d", "Alice", "N/A"⟩]
      [⟨1, 0, 100, "d", "Bob", "N/A"⟩] = Except.ok [] := by
  have hskip : pairCandidate ⟨2, 2, true⟩ ⟨0, 0, 100, "d", "Alice", "N/A"⟩
      ⟨1, 0, 100, "d", "Bob", "N/A"⟩ = Except.ok none :=
    pairCandidate_eq_skip ⟨2, 2, true⟩ ⟨0, 0, 100, "d", "Alice", "N/A"⟩
      ⟨1, 0, 100, "d", "Bob", "N/A"⟩ (by rfl)
  obtain ⟨hg, hf⟩ := findMatches_single_none hskip
  exact ⟨by decide, by norm_num, by rfl, hg, hf⟩

/-- C1 (amended): with `check_person` on, a pair whose identity
comparison yields `(False, 0.0)` is excluded from the candidate pool
(line 216 `if person_match or not self.check_person`), and consequently
every generated candidate carries `person_match = True` and a
`person_match_quality` of `1.0` or `0.8` — a `0.0` identity score never
reaches the assignment step. -/
theorem claim1_identity_mismatch_excluded :
    (∀ (cfg : Config) (cap job : Rec), cfg.checkPerson = true →
      cap.person ≠ "N/A" → job.person ≠ "N/A" →
      personCompare cap.person job.person = (false, 0) →
      pairCandidate cfg cap job = Except.ok none) ∧
    (∀ (cfg : Config) (caps jobs : List Rec) (cands : List Candidate),
      cfg.checkPerson = true →
      genCandidates cfg caps jobs = Except.ok cands →
      ∀ c ∈ cands, c.personMatch = true ∧
        (c.personMatchQuality = 1 ∨ c.personMatchQuality = 8/10)) := by
  constructor
  · intro cfg cap job hcp hna hnb hpc
    have hpe : personEval cfg cap.person job.person = (false, 0) := by
      unfold personEval
      rw [if_pos ⟨hcp, hna, hnb⟩, hpc]
    unfold pairCandidate
    by_cases h1 : (cap.date - job.date).natAbs ≤ cfg.toleranceDays ∧
        |cap.amount - job.amount| ≤ cfg.toleranceAmount
    · simp [h1, hpe, hcp]
    · simp [h1]
  · intro cfg caps jobs cands hcp hg c hc
    rcases mem_genCandidates hg c hc with ⟨cap, _, job, _, hp⟩
    obtain ⟨-, -, -, -, -, -, hpm, hpq, -, hgate⟩ := pairCandidate_ok_some hp
    rw [hcp] at hgate
    simp only [Bool.not_true, Bool.or_false] at hgate
    rw [hpm] at hgate ⊢
    refine ⟨hgate, ?_⟩
    rw [hpq]
    exact personEval_snd_of_fst hgate

/-- Witness for C1 (amended) at a concrete mismatching pair. -/
theorem claim1_witness :
    pairCandidate ⟨2, 2, true⟩ ⟨0, 0, 100, "d", "Alice", "N/A"⟩
      ⟨1, 0, 100, "d", "Bob", "N/A"⟩ = Except.ok none :=
  claim1_identity_mismatch_excluded.1 ⟨2, 2, true⟩
    ⟨0, 0, 100, "d", "Alice", "N/A"⟩ ⟨1, 0, 100, "d", "Bob", "N/A"⟩
    rfl (by decide) (by decide) (by rfl)

/-- C2 (counterexample): with `check_person` on and the CapitalOne
person column equal to the `'N/A'` sentinel, the code still scores with
the `0.2/0.4/0.4` weights and a defaulted identity score of `1.0`: the
pair at deltas (1 day, $1) under tolerances (2, $2) gets quality
`0.2·0.5 + 0.4·0.5 + 0.4·1 = 0.7`, not the `0.3·0.5 + 0.7·0.5 = 0.5`
the claim's omitted-identity formula would give. -/
theorem claim2_counterexample :
    pairCandidate ⟨2, 2, true⟩ ⟨0, 0, 100, "d", "N/A", "N/A"⟩
      ⟨0, 1, 101, "d", "Bob", "N/A"⟩ = Except.ok (some
      { capIdx := 0, jobIdx := 0, capDate := 0, jobDate := 1,
        capAmount := 100, jobAmount := 101, capDesc := "d", jobDesc := "d",
        capPerson := "N/A", jobPerson := "Bob", capCardNo := "N/A",
        dateDiff := 1, amountDiff := 1, personMatch := true,
        personMatchQuality := 1, matchQuality := 7/10 }) ∧
    (7 : ℚ)/10 = dScore ⟨2, 2, true⟩ 1 * (2/10) + aScore ⟨2, 2, true⟩ 1 * (4/10) +
      1 * (4/10) ∧
    (7 : ℚ)/10 ≠ dScore ⟨2, 2, true⟩ 1 * (3/10) + aScore ⟨2, 2, true⟩ 1 * (7/10) := by
  refine ⟨?_, by norm_num [dScore, aScore], by norm_num [dScore, aScore]⟩
  have hq : calcMatchQuality ⟨2, 2, true⟩ ((0 : ℤ) - 1).natAbs |(100 : ℚ) - 101|
      (personEval ⟨2, 2, true⟩ "N/A" "Bob").2 = some (7/10) := by
    show calcMatchQuality ⟨2, 2, true⟩ 1 |(100 : ℚ) - 101| 1 = some (7/10)
    rw [calcMatchQuality_eq 1 |(100 : ℚ) - 101| 1 (by decide) (by norm_num)]
    norm_num [dScore, aScore]
  have h := pairCandidate_eq_some ⟨2, 2, true⟩ ⟨0, 0, 100, "d", "N/A", "N/A"⟩
    ⟨0, 1, 101, "d", "Bob", "N/A"⟩ (7/10) (by decide) (by norm_num) (by rfl) hq
  rw [h]
  congr 1
  congr 1
  congr 1
  all_goals first
  | rfl
  | norm_num

/-- C2 (amended): the identity comparison runs exactly when
`check_person` is on and neither person column is the `'N/A'` sentinel
(an `'Unknown'` identity is still compared); when the comparison is
skipped the pair defaults to `person_match_quality = 1.0`, and the
weighting is chosen by `check_person` alone: `0.3/0.7` exactly when
`check_person` is off, and `0.2/0.4/0.4` — with the defaulted identity
score — whenever it is on, even if a side's identity was `'N/A'`. -/
theorem claim2_quality_modes :
    (∀ (cfg : Config) (a b : String),
      cfg.checkPerson = false ∨ a = "N/A" ∨ b = "N/A" →
      personEval cfg a b = (true, 1)) ∧
    (∀ (cfg : Config) (a b : String), cfg.checkPerson = true →
      a ≠ "N/A" → b ≠ "N/A" → personEval cfg a b = personCompare a b) ∧
    (∀ (cfg : Config) (dd : ℕ) (ad pmq : ℚ),
      cfg.toleranceDays ≠ 0 → cfg.toleranceAmount ≠ 0 →
      cfg.checkPerson = false →
      calcMatchQuality cfg dd ad pmq =
        some (dScore cfg dd * (3/10) + aScore cfg ad * (7/10))) ∧
    (∀ (cfg : Config) (dd : ℕ) (ad pmq : ℚ),
      cfg.toleranceDays ≠ 0 → cfg.toleranceAmount ≠ 0 →
      cfg.checkPerson = true →
      calcMatchQuality cfg dd ad pmq =
        some (dScore cfg dd * (2/10) + aScore cfg ad * (4/10) + pmq * (4/10))) := by
  refine ⟨?_, ?_, ?_, ?_⟩
  · intro cfg a b h
    unfold personEval
    rw [if_neg]
    rintro ⟨h1, h2, h3⟩
    rcases h with h | h | h
    · rw [h] at h1
      cases h1
    · exact h2 h
    · exact h3 h
  · intro cfg a b hcp ha hb
    unfold personEval
    rw [if_pos ⟨hcp, ha, hb⟩]
  · intro cfg dd ad pmq htd hta hcp
    rw [calcMatchQuality_eq dd ad pmq htd hta, hcp]
    simp
  · intro cfg dd ad pmq htd hta hcp
    rw [calcMatchQuality_eq dd ad pmq htd hta, hcp]
    simp

/-- Witness for C2 (amended) at concrete inputs. -/
theorem claim2_witness :
    personEval ⟨2, 2, true⟩ "N/A" "Bob" = (true, 1) ∧
    calcMatchQuality ⟨2, 2, true⟩ 1 1 1 =
      some (dScore ⟨2, 2, true⟩ 1 * (2/10) + aScore ⟨2, 2, true⟩ 1 * (4/10) +
        1 * (4/10)) :=
  ⟨claim2_quality_modes.1 ⟨2, 2, true⟩ "N/A" "Bob" (Or.inr (Or.inl rfl)),
   claim2_quality_modes.2.2.2 ⟨2, 2, true⟩ 1 1 1 (by decide)
     (by show (2 : ℚ) ≠ 0; norm_num) rfl⟩

/-- C3: the claim says quality scoring is total at zero tolerances with
`dateScore = 1.0` when both the tolerance and the delta are zero.  The
code has no such guard: `_calculate_match_quality` divides by
`tolerance_days` (line 256) and `tolerance_amount` (line 257)
unconditionally, so a zero tolerance raises `ZeroDivisionError`
(modelled as `none` / `Except.error`) as soon as any candidate is within
tolerance — e.g. two records on the same day.  The UI slider explicitly
allows `tolerance_days = 0` (line 357), so this is a code bug, not
intended behavior. -/
theorem claim3_zero_tolerance_division :
    calcMatchQuality ⟨2, 0, false⟩ 0 0 1 = none ∧
    calcMatchQuality ⟨0, 5, true⟩ 0 0 1 = none ∧
    genCandidates ⟨2, 0, false⟩ [⟨0, 0, 100, "a", "N/A", "N/A"⟩]
      [⟨0, 0, 100, "b", "N/A", "N/A"⟩] = Except.error () ∧
    findMatches ⟨2, 0, false⟩ [⟨0, 0, 100, "a", "N/A", "N/A"⟩]
      [⟨0, 0, 100, "b", "N/A", "N/A"⟩] = Except.error () := by
  have herr : pairCandidate ⟨2, 0, false⟩ ⟨0, 0, 100, "a", "N/A", "N/A"⟩
      ⟨0, 0, 100, "b", "N/A", "N/A"⟩ = Except.error () :=
    pairCandidate_eq_error ⟨2, 0, false⟩ ⟨0, 0, 100, "a", "N/A", "N/A"⟩
      ⟨0, 0, 100, "b", "N/A", "N/A"⟩ (by decide) (by norm_num) (by rfl) rfl
  obtain ⟨hg, hf⟩ := findMatches_single_error herr
  exact ⟨rfl, rfl, hg, hf⟩

/-- C7: the identity comparison yields exactly 1.0 on case-insensitive
equality (after stripping), else 0.8 on case-insensitive substring
containment in either direction, else 0.0; and on the concrete pair
"Aaron Davidson" / "Aaron" with identical date and amount under
`check_person`, the full engine produces one match with identity score
0.8 and quality `0.2·1 + 0.4·1 + 0.4·0.8 = 0.92`. -/
theorem claim7_identity_values :
    (∀ a b : String, pyLower (pyStrip a) = pyLower (pyStrip b) →
      personCompare a b = (true, 1)) ∧
    (∀ a b : String, pyLower (pyStrip a) ≠ pyLower (pyStrip b) →
      (containsSub (pyLower (pyStrip a)) (pyLower (pyStrip b)) ||
        containsSub (pyLower (pyStrip b)) (pyLower (pyStrip a))) = true →
      personCompare a b = (true, 8/10)) ∧
    (∀ a b : String, pyLower (pyStrip a) ≠ pyLower (pyStrip b) →
      (containsSub (pyLower (pyStrip a)) (pyLower (pyStrip b)) ||
        containsSub (pyLower (pyStrip b)) (pyLower (pyStrip a))) = false →
      personCompare a b = (false, 0)) ∧
    findMatches ⟨2, 2, true⟩ [⟨0, 10, 50, "d", "Aaron Davidson", "9265"⟩]
      [⟨0, 10, 50, "d", "Aaron", "N/A"⟩] = Except.ok
      [{ capIdx := 0, jobIdx := 0, capDate := 10, jobDate := 10,
         capAmount := 50, jobAmount := 50, capDesc := "d", jobDesc := "d",
         capPerson := "Aaron Davidson", jobPerson := "Aaron",
         capCardNo := "9265", dateDiff := 0, amountDiff := 0,
         personMatch := true, personMatchQuality := 8/10,
         matchQuality := 92/100 }] := by
  refine ⟨?_, ?_, ?_, ?_⟩
  · intro a b h
    unfold personCompare
    rw [if_pos h]
  · intro a b h1 h2
    unfold personCompare
    rw [if_neg h1, if_pos h2]
  · intro a b h1 h2
    unfold personCompare
    rw [if_neg h1, if_neg (by rw [h2]; exact Bool.false_ne_true)]
  · have hq : calcMatchQuality ⟨2, 2, true⟩ ((10 : ℤ) - 10).natAbs
        |(50 : ℚ) - 50| (personEval ⟨2, 2, true⟩ "Aaron Davidson" "Aaron").2 =
        some (92/100) := by
      show calcMatchQuality ⟨2, 2, true⟩ 0 |(50 : ℚ) - 50| (8/10) = some (92/100)
      rw [calcMatchQuality_eq 0 |(50 : ℚ) - 50| (8/10) (by decide) (by norm_num)]
      norm_num [dScore, aScore]
    have h := pairCandidate_eq_some ⟨2, 2, true⟩
      ⟨0, 10, 50, "d", "Aaron Davidson", "9265"⟩ ⟨0, 10, 50, "d", "Aaron", "N/A"⟩
      (92/100) (by decide) (by norm_num) (by rfl) hq
    obtain ⟨-, hf⟩ := findMatches_single_some h
    rw [hf]
    congr 1
    congr 1
    congr 1
    all_goals first
    | rfl
    | norm_num

/-- Witness for C7 at the concrete substring pair of Scenario D. -/
theorem claim7_witness :
    personCompare "Aaron Davidson" "Aaron" = (true, 8/10) :=
  claim7_identity_values.2.1 "Aaron Davidson" "Aaron" (by decide) (by rfl)

/-- C8: with `check_person` off, any pair within both tolerances is
generated (identity cannot gate it) and scored with the `0.3/0.7`
weighting; on Scenario A — $100 at day 0 vs $101.50 at day 1 under
tolerances (2 days, $2) with different persons — the engine returns
exactly one match with `date_diff = 1`, `amount_diff = 1.5` and quality
`0.3·0.5 + 0.7·0.25 = 0.325`. -/
theorem claim8_identity_off :
    (∀ (cfg : Config) (cap job : Rec), cfg.checkPerson = false →
      cfg.toleranceDays ≠ 0 → cfg.toleranceAmount ≠ 0 →
      (cap.date - job.date).natAbs ≤ cfg.toleranceDays →
      |cap.amount - job.amount| ≤ cfg.toleranceAmount →
      ∃ c : Candidate,
        pairCandidate cfg cap job = Except.ok (some c) ∧
        findMatches cfg [cap] [job] = Except.ok [c] ∧
        c.dateDiff = (cap.date - job.date).natAbs ∧
        c.amountDiff = |cap.amount - job.amount| ∧
        c.matchQuality =
          dScore cfg c.dateDiff * (3/10) + aScore cfg c.amountDiff * (7/10)) ∧
    (findMatches ⟨2, 2, false⟩ [⟨0, 0, 100, "d", "Alice", "N/A"⟩]
        [⟨0, 1, 203/2, "d", "Bob", "N/A"⟩] = Except.ok
        [{ capIdx := 0, jobIdx := 0, capDate := 0, jobDate := 1,
           capAmount := 100, jobAmount := 203/2, capDesc := "d",
           jobDesc := "d", capPerson := "Alice", jobPerson := "Bob",
           capCardNo := "N/A", dateDiff := 1, amountDiff := 3/2,
           personMatch := true, personMatchQuality := 1,
           matchQuality := 13/40 }] ∧
      personCompare "Alice" "Bob" = (false, 0)) := by
  constructor
  · intro cfg cap job hcp htd hta hdd had
    have hpe : personEval cfg cap.person job.person = (true, 1) := by
      unfold personEval
      rw [if_neg]
      rintro ⟨h1, -⟩
      rw [hcp] at h1
      cases h1
    have hq : calcMatchQuality cfg (cap.date - job.date).natAbs
        |cap.amount - job.amount| (personEval cfg cap.person job.person).2 =
        some (dScore cfg (cap.date - job.date).natAbs * (3/10) +
          aScore cfg |cap.amount - job.amount| * (7/10)) := by
      rw [hpe]
      show calcMatchQuality cfg (cap.date - job.date).natAbs
        |cap.amount - job.amount| 1 = _
      rw [calcMatchQuality_eq (cap.date - job.date).natAbs
        |cap.amount - job.amount| 1 htd hta, hcp]
      simp
    have hpair := pairCandidate_eq_some cfg cap job
      (dScore cfg (cap.date - job.date).natAbs * (3/10) +
        aScore cfg |cap.amount - job.amount| * (7/10)) hdd had
      (by rw [hpe]; rfl) hq
    obtain ⟨-, hf⟩ := findMatches_single_some hpair
    exact ⟨_, hpair, hf, rfl, rfl, rfl⟩
  · refine ⟨?_, by rfl⟩
    have habs : |(100 : ℚ) - 203/2| = 3/2 := by
      rw [abs_of_nonpos (by norm_num)]
      norm_num
    have hq : calcMatchQuality ⟨2, 2, false⟩ ((0 : ℤ) - 1).natAbs
        |(100 : ℚ) - 203/2| (personEval ⟨2, 2, false⟩ "Alice" "Bob").2 =
        some (13/40) := by
      show calcMatchQuality ⟨2, 2, false⟩ 1 |(100 : ℚ) - 203/2| 1 = some (13/40)
      rw [habs, calcMatchQuality_eq 1 (3/2) 1 (by decide) (by norm_num)]
      norm_num [dScore, aScore]
    have h := pairCandidate_eq_some ⟨2, 2, false⟩ ⟨0, 0, 100, "d", "Alice", "N/A"⟩
      ⟨0, 1, 203/2, "d", "Bob", "N/A"⟩ (13/40) (by decide)
      (by rw [abs_le]; constructor <;> norm_num) (by rfl) hq
    obtain ⟨-, hf⟩ := findMatches_single_some h
    rw [hf]
    congr 1
    congr 1
    congr 1

/-- Witness for C8 at Scenario A's configuration and records. -/
theorem claim8_witness :
    ∃ c : Candidate,
      pairCandidate ⟨2, 2, false⟩ ⟨0, 0, 100, "d", "Alice", "N/A"⟩
        ⟨0, 1, 203/2, "d", "Bob", "N/A"⟩ = Except.ok (some c) ∧
      findMatches ⟨2, 2, false⟩ [⟨0, 0, 100, "d", "Alice", "N/A"⟩]
        [⟨0, 1, 203/2, "d", "Bob", "N/A"⟩] = Except.ok [c] ∧
      c.dateDiff = ((0 : ℤ) - 1).natAbs ∧
      c.amountDiff = |(100 : ℚ) - 203/2| ∧
      c.matchQuality = dScore ⟨2, 2, false⟩ c.dateDiff * (3/10) +
        aScore ⟨2, 2, false⟩ c.amountDiff * (7/10) :=
  claim8_identity_off.1 ⟨2, 2, false⟩ ⟨0, 0, 100, "d", "Alice", "N/A"⟩
    ⟨0, 1, 203/2, "d", "Bob", "N/A"⟩ rfl (by decide)
    (by show (2 : ℚ) ≠ 0; norm_num) (by decide)
    (by show |(100 : ℚ) - 203/2| ≤ 2; rw [abs_le]; constructor <;> norm_num)

/-- C9: `get_person_name` returns `'Unknown'` for a missing card cell;
the canonical person for a token found in `card_to_person`; and for a
present but unmapped token the distinct string `'Unknown Card <token>'`,
which differs from `'Unknown'` and carries the raw token. -/
theorem claim9_identity_resolver :
    getPersonName CardNo.missing = "Unknown" ∧
    (∀ (cn : CardNo) (s p : String), cardTokenStr cn = some s →
      cardToPerson.lookup s = some p → getPersonName cn = p) ∧
    (∀ (cn : CardNo) (s : String), cardTokenStr cn = some s →
      cardToPerson.lookup s = none →
      getPersonName cn = "Unknown Card " ++ s ∧
      getPersonName cn ≠ "Unknown" ∧
      List.IsInfix s.toList (getPersonName cn).toList) := by
  refine ⟨rfl, ?_, ?_⟩
  · intro cn s p h1 h2
    unfold getPersonName
    split
    next heq =>
      rw [h1] at heq
      exact Option.noConfusion heq
    next s2 heq =>
      rw [h1] at heq
      injection heq with heq
      subst heq
      rw [h2]
  · intro cn s h1 h2
    have hval : getPersonName cn = "Unknown Card " ++ s := by
      unfold getPersonName
      split
      next heq =>
        rw [h1] at heq
        exact Option.noConfusion heq
      next s2 heq =>
        rw [h1] at heq
        injection heq with heq
        subst heq
        rw [h2]
    refine ⟨hval, ?_, ?_⟩
    · rw [hval]
      intro heq
      have hlen := congrArg String.length heq
      rw [String.length_append] at hlen
      have h13 : ("Unknown Card " : String).length = 13 := by decide
      have h7 : ("Unknown" : String).length = 7 := by decide
      rw [h13, h7] at hlen
      omega
    · rw [hval]
      refine ⟨("Unknown Card " : String).toList, [], ?_⟩
      have : ("Unknown Card " ++ s).toList =
          ("Unknown Card " : String).toList ++ s.toList := by
        simp [String.toList, String.data_append]
      rw [this]
      simp

/-- Witness for C9 on a mapped and an unmapped concrete token. -/
theorem claim9_witness :
    getPersonName (CardNo.numeric 9265) = "Aaron Davidson" ∧
    getPersonName (CardNo.text "1234") = "Unknown Card 1234" ∧
    getPersonName (CardNo.text "1234") ≠ "Unknown" :=
  ⟨claim9_identity_resolver.2.1 (CardNo.numeric 9265) "9265" "Aaron Davidson"
     (by rfl) (by rfl),
   (claim9_identity_resolver.2.2 (CardNo.text "1234") "1234" rfl (by rfl)).1,
   (claim9_identity_resolver.2.2 (CardNo.text "1234") "1234" rfl (by rfl)).2.1⟩

/-! ### Claims C4 and C5 -/

/-- C4: for unique ids within each input set, a successful run
partitions the records: the matched CapitalOne (resp. Jobber) indices
are duplicate-free and drawn from the input ids, every input record is
in exactly one of matched / unmatched, and
`|matches| + |unmatched| = |records|` on both sides. -/
theorem claim4_partition (cfg : Config) (caps jobs : List Rec)
    (ms : List Candidate) (hok : findMatches cfg caps jobs = Except.ok ms)
    (hcap : (caps.map Rec.idx).Nodup) (hjob : (jobs.map Rec.idx).Nodup) :
    (usedCapIdx ms).Nodup ∧ (usedJobIdx ms).Nodup ∧
    (∀ c ∈ ms, c.capIdx ∈ caps.map Rec.idx ∧ c.jobIdx ∈ jobs.map Rec.idx) ∧
    (∀ r ∈ caps, (r.idx ∈ usedCapIdx ms) ↔ r ∉ unmatchedCap caps ms) ∧
    (∀ r ∈ jobs, (r.idx ∈ usedJobIdx ms) ↔ r ∉ unmatchedJob jobs ms) ∧
    ms.length + (unmatchedCap caps ms).length = caps.length ∧
    ms.length + (unmatchedJob jobs ms).length = jobs.length := by
  rcases findMatches_ok_elim hok with ⟨cands, hg, hms⟩
  have hmem : ∀ c ∈ ms, c ∈ cands := by
    intro c hc
    rw [hms] at hc
    exact (sortCands_perm cands).mem_iff.1 (greedy_subset _ _ _ _ hc)
  have hproj : ∀ c ∈ ms, c.capIdx ∈ caps.map Rec.idx ∧
      c.jobIdx ∈ jobs.map Rec.idx := by
    intro c hc
    rcases mem_genCandidates hg c (hmem c hc) with ⟨cap, hcap2, job, hjob2, hp⟩
    obtain ⟨e1, e2, -, -, -, -, -, -, -, -⟩ := pairCandidate_ok_some hp
    rw [e1, e2]
    exact ⟨List.mem_map_of_mem Rec.idx hcap2, List.mem_map_of_mem Rec.idx hjob2⟩
  have hnd : (usedCapIdx ms).Nodup ∧ (usedJobIdx ms).Nodup := by
    rw [hms]
    exact greedy_nodup _ _ _
  have hpart1 : ∀ r ∈ caps, (r.idx ∈ usedCapIdx ms) ↔
      r ∉ unmatchedCap caps ms := by
    intro r hr
    unfold unmatchedCap
    rw [List.mem_filter]
    constructor
    · intro h hcon
      rw [decide_eq_true_eq] at hcon
      exact hcon.2 h
    · intro h
      by_contra hnot
      exact h ⟨hr, by rw [decide_eq_true_eq]; exact hnot⟩
  have hpart2 : ∀ r ∈ jobs, (r.idx ∈ usedJobIdx ms) ↔
      r ∉ unmatchedJob jobs ms := by
    intro r hr
    unfold unmatchedJob
    rw [List.mem_filter]
    constructor
    · intro h hcon
      rw [decide_eq_true_eq] at hcon
      exact hcon.2 h
    · intro h
      by_contra hnot
      exact h ⟨hr, by rw [decide_eq_true_eq]; exact hnot⟩
  have hcnt1 : ms.length + (unmatchedCap caps ms).length = caps.length := by
    have hfull : caps.length =
        (caps.filter (fun r => decide (r.idx ∈ usedCapIdx ms))).length +
        (caps.filter (fun r => !(decide (r.idx ∈ usedCapIdx ms)))).length :=
      List.length_eq_length_filter_add _
    have hin : (caps.filter (fun r => decide (r.idx ∈ usedCapIdx ms))).length =
        (usedCapIdx ms).length := by
      apply length_filter_idx_mem caps (usedCapIdx ms) hcap hnd.1
      intro x hx
      rcases List.mem_map.1 hx with ⟨c, hc, hcx⟩
      rw [← hcx]
      exact (hproj c hc).1
    have hout : unmatchedCap caps ms =
        caps.filter (fun r => !(decide (r.idx ∈ usedCapIdx ms))) := by
      unfold unmatchedCap
      apply List.filter_congr
      intro a ha
      rw [decide_not]
    have hml : (usedCapIdx ms).length = ms.length := List.length_map _ _
    rw [hout]
    omega
  have hcnt2 : ms.length + (unmatchedJob jobs ms).length = jobs.length := by
    have hfull : jobs.length =
        (jobs.filter (fun r => decide (r.idx ∈ usedJobIdx ms))).length +
        (jobs.filter (fun r => !(decide (r.idx ∈ usedJobIdx ms)))).length :=
      List.length_eq_length_filter_add _
    have hin : (jobs.filter (fun r => decide (r.idx ∈ usedJobIdx ms))).length =
        (usedJobIdx ms).length := by
      apply length_filter_idx_mem jobs (usedJobIdx ms) hjob hnd.2
      intro x hx
      rcases List.mem_map.1 hx with ⟨c, hc, hcx⟩
      rw [← hcx]
      exact (hproj c hc).2
    have hout : unmatchedJob jobs ms =
        jobs.filter (fun r => !(decide (r.idx ∈ usedJobIdx ms))) := by
      unfold unmatchedJob
      apply List.filter_congr
      intro a ha
      rw [decide_not]
    have hml : (usedJobIdx ms).length = ms.length := List.length_map _ _
    rw [hout]
    omega
  exact ⟨hnd.1, hnd.2, hproj, hpart1, hpart2, hcnt1, hcnt2⟩

/-- Witness for C4 at the concrete example run. -/
theorem claim4_witness :
    (usedCapIdx [exCand]).Nodup ∧ (usedJobIdx [exCand]).Nodup ∧
    (∀ c ∈ [exCand], c.capIdx ∈ [exCap].map Rec.idx ∧
      c.jobIdx ∈ [exJob].map Rec.idx) ∧
    (∀ r ∈ [exCap], (r.idx ∈ usedCapIdx [exCand]) ↔
      r ∉ unmatchedCap [exCap] [exCand]) ∧
    (∀ r ∈ [exJob], (r.idx ∈ usedJobIdx [exCand]) ↔
      r ∉ unmatchedJob [exJob] [exCand]) ∧
    [exCand].length + (unmatchedCap [exCap] [exCand]).length = [exCap].length ∧
    [exCand].length + (unmatchedJob [exJob] [exCand]).length = [exJob].length :=
  claim4_partition exCfg [exCap] [exJob] [exCand] exRun.2 (by decide) (by decide)

/-- C5: a candidate is generated only when both deltas are within the
tolerances, and therefore every final match also satisfies
`dateDiff ≤ toleranceDays` and `amountDiff ≤ toleranceAmount`. -/
theorem claim5_tolerance_containment (cfg : Config) (caps jobs : List Rec) :
    (∀ cands, genCandidates cfg caps jobs = Except.ok cands →
      ∀ c ∈ cands, c.dateDiff ≤ cfg.toleranceDays ∧
        c.amountDiff ≤ cfg.toleranceAmount) ∧
    (∀ ms, findMatches cfg caps jobs = Except.ok ms →
      ∀ c ∈ ms, c.dateDiff ≤ cfg.toleranceDays ∧
        c.amountDiff ≤ cfg.toleranceAmount) := by
  have hgen : ∀ cands, genCandidates cfg caps jobs = Except.ok cands →
      ∀ c ∈ cands, c.dateDiff ≤ cfg.toleranceDays ∧
        c.amountDiff ≤ cfg.toleranceAmount := by
    intro cands hg c hc
    rcases mem_genCandidates hg c hc with ⟨cap, -, job, -, hp⟩
    obtain ⟨-, -, -, -, h5, h6, -, -, -, -⟩ := pairCandidate_ok_some hp
    exact ⟨h5, h6⟩
  refine ⟨hgen, ?_⟩
  intro ms hok c hc
  rcases findMatches_ok_elim hok with ⟨cands, hg, hms⟩
  rw [hms] at hc
  exact hgen cands hg c ((sortCands_perm cands).mem_iff.1 (greedy_subset _ _ _ _ hc))

/-- Witness for C5 at the concrete example run. -/
theorem claim5_witness :
    ∀ c ∈ [exCand], c.dateDiff ≤ exCfg.toleranceDays ∧
      c.amountDiff ≤ exCfg.toleranceAmount :=
  (claim5_tolerance_containment exCfg [exCap] [exJob]).1 [exCand] exRun.1

/-! ### Claim C6: the assignment step against the reference algorithm -/

lemma genRow_fields {cfg : Config} {cap : Rec} {jobs : List Rec}
    {row : List Candidate} (h : genRow cfg cap jobs = Except.ok row) :
    ∀ c ∈ row, c.capIdx = cap.idx ∧ c.jobIdx ∈ jobs.map Rec.idx := by
  intro c hc
  rcases mem_genRow h c hc with ⟨job, hj, hp⟩
  obtain ⟨e1, e2, -, -, -, -, -, -, -, -⟩ := pairCandidate_ok_some hp
  refine ⟨e1, ?_⟩
  rw [e2]
  exact List.mem_map_of_mem Rec.idx hj

lemma genRow_pairwise {cfg : Config} {cap : Rec} :
    ∀ {jobs : List Rec} {row : List Candidate},
      genRow cfg cap jobs = Except.ok row →
      List.Pairwise (fun a b => a.idx < b.idx) jobs →
      List.Pairwise (fun a b => a.jobIdx < b.jobIdx) row := by
  intro jobs
  induction jobs with
  | nil =>
    intro row h hp
    unfold genRow at h
    injection h with h
    rw [← h]
    exact List.Pairwise.nil
  | cons job jobs ih =>
    intro row h hp
    rw [List.pairwise_cons] at hp
    unfold genRow at h
    rcases hpair : pairCandidate cfg cap job with e | o
    · rw [hpair] at h
      cases h
    · rw [hpair] at h
      rcases o with _ | c0
      · exact ih h hp.2
      · rcases hr : genRow cfg cap jobs with e | rest
        · rw [hr] at h
          cases h
        · rw [hr] at h
          injection h with h
          rw [← h]
          rw [List.pairwise_cons]
          refine ⟨?_, ih hr hp.2⟩
          intro c hc
          obtain ⟨-, hjm⟩ := genRow_fields hr c hc
          obtain ⟨-, e2, -, -, -, -, -, -, -, -⟩ := pairCandidate_ok_some hpair
          rw [e2]
          rcases List.mem_map.1 hjm with ⟨j2, hj2, hjx⟩
          rw [← hjx]
          exact hp.1 j2 hj2

lemma genCandidates_pairwise {cfg : Config} :
    ∀ {caps jobs : List Rec} {cands : List Candidate},
      genCandidates cfg caps jobs = Except.ok cands →
      List.Pairwise (fun a b => a.idx < b.idx) caps →
      List.Pairwise (fun a b => a.idx < b.idx) jobs →
      List.Pairwise (fun a b => a.capIdx < b.capIdx ∨
        (a.capIdx = b.capIdx ∧ a.jobIdx < b.jobIdx)) cands := by
  intro caps
  induction caps with
  | nil =>
    intro jobs cands h hc hj
    unfold genCandidates at h
    injection h with h
    rw [← h]
    exact List.Pairwise.nil
  | cons cap caps ih =>
    intro jobs cands h hc hj
    rw [List.pairwise_cons] at hc
    unfold genCandidates at h
    rcases hr : genRow cfg cap jobs with e | row
    · rw [hr] at h
      cases h
    · rw [hr] at h
      rcases hg : genCandidates cfg caps jobs with e | rest
      · rw [hg] at h
        cases h
      · rw [hg] at h
        injection h with h
        rw [← h]
        rw [List.pairwise_append]
        refine ⟨?_, ih hg hc.2 hj, ?_⟩
        · apply (genRow_pairwise hr hj).imp_of_mem
          intro a b ha hb hab
          exact Or.inr ⟨by rw [(genRow_fields hr a ha).1, (genRow_fields hr b hb).1],
            hab⟩
        · intro a ha b hb
          left
          rw [(genRow_fields hr a ha).1]
          rcases mem_genCandidates hg b hb with ⟨cap2, hcap2, job2, hjob2, hp2⟩
          obtain ⟨e1, -, -, -, -, -, -, -, -, -⟩ := pairCandidate_ok_some hp2
          rw [e1]
          exact hc.1 cap2 hcap2

/-- C6: the assignment step realizes the reference algorithm exactly:
`find_matches` returns the single greedy pass over `sortCands cands`;
that list is a permutation of the generated candidates, sorted by
quality descending, and stable (every quality fiber appears in
generation order); it is moreover the unique such list, so the spec's
"stable sort by quality descending" determines it; and when the input
row indices are ascending, the generation order is source-ascending then
target-ascending (lexicographic). -/
theorem claim6_assignment_reference (cfg : Config) (caps jobs : List Rec)
    (cands : List Candidate)
    (hg : genCandidates cfg caps jobs = Except.ok cands) :
    findMatches cfg caps jobs = Except.ok (greedy (sortCands cands) [] []) ∧
    (sortCands cands).Perm cands ∧
    List.Pairwise (fun a b => b.matchQuality ≤ a.matchQuality) (sortCands cands) ∧
    (∀ v : ℚ, (sortCands cands).filter (fun d => decide (d.matchQuality = v)) =
      cands.filter (fun d => decide (d.matchQuality = v))) ∧
    (∀ s : List Candidate,
      List.Pairwise (fun a b => b.matchQuality ≤ a.matchQuality) s →
      (∀ v : ℚ, s.filter (fun d => decide (d.matchQuality = v)) =
        cands.filter (fun d => decide (d.matchQuality = v))) →
      s = sortCands cands) ∧
    (List.Pairwise (fun a b => a.idx < b.idx) caps →
      List.Pairwise (fun a b => a.idx < b.idx) jobs →
      List.Pairwise (fun a b => a.capIdx < b.capIdx ∨
        (a.capIdx = b.capIdx ∧ a.jobIdx < b.jobIdx)) cands) := by
  refine ⟨?_, sortCands_perm cands, sortCands_sorted cands,
    sortCands_filter cands, ?_, ?_⟩
  · unfold findMatches
    rw [hg]
  · intro s hs hfilter
    apply sorted_fiber_unique s (sortCands cands) hs (sortCands_sorted cands)
    intro v
    rw [hfilter v, sortCands_filter]
  · intro hcaps hjobs
    exact genCandidates_pairwise hg hcaps hjobs

/-- Witness for C6 at the concrete example run. -/
theorem claim6_witness :
    findMatches exCfg [exCap] [exJob] =
      Except.ok (greedy (sortCands [exCand]) [] []) ∧
    (sortCands [exCand]).Perm [exCand] ∧
    List.Pairwise (fun a b => b.matchQuality ≤ a.matchQuality)
      (sortCands [exCand]) ∧
    (∀ v : ℚ, (sortCands [exCand]).filter (fun d => decide (d.matchQuality = v)) =
      [exCand].filter (fun d => decide (d.matchQuality = v))) ∧
    (∀ s : List Candidate,
      List.Pairwise (fun a b => b.matchQuality ≤ a.matchQuality) s →
      (∀ v : ℚ, s.filter (fun d => decide (d.matchQuality = v)) =
        [exCand].filter (fun d => decide (d.matchQuality = v))) →
      s = sortCands [exCand]) ∧
    (List.Pairwise (fun a b => a.idx < b.idx) [exCap] →
      List.Pairwise (fun a b => a.idx < b.idx) [exJob] →
      List.Pairwise (fun a b => a.capIdx < b.capIdx ∨
        (a.capIdx = b.capIdx ∧ a.jobIdx < b.jobIdx)) [exCand]) :=
  claim6_assignment_reference exCfg [exCap] [exJob] [exCand] exRun.1

/-! ### Claim C10: person fields do not interfere when checking is off -/

lemma erasePerson_inj_fields {a b : Rec} (h : erasePerson a = erasePerson b) :
    a.idx = b.idx ∧ a.date = b.date ∧ a.amount = b.amount ∧
    a.description = b.description ∧ a.cardNo = b.cardNo := by
  unfold erasePerson at h
  injection h with h1 h2 h3 h4 h5 h6
  exact ⟨h1, h2, h3, h4, h6⟩

/-- With `check_person` off, one pair evaluation in closed form: the
person gate always passes with the default score `1.0`. -/
lemma pairCandidate_off {cfg : Config} (hcp : cfg.checkPerson = false)
    (cap job : Rec) :
    pairCandidate cfg cap job =
      if (cap.date - job.date).natAbs ≤ cfg.toleranceDays ∧
          |cap.amount - job.amount| ≤ cfg.toleranceAmount then
        match calcMatchQuality cfg (cap.date - job.date).natAbs
            |cap.amount - job.amount| 1 with
        | none => Except.error ()
        | some q => Except.ok (some
            ⟨cap.idx, job.idx, cap.date, job.date, cap.amount, job.amount,
             cap.description, job.description, cap.person, job.person,
             cap.cardNo, (cap.date - job.date).natAbs,
             |cap.amount - job.amount|, true, 1, q⟩)
      else Except.ok none := by
  have hpe : personEval cfg cap.person job.person = (true, 1) := by
    unfold personEval
    rw [if_neg]
    rintro ⟨h1, -⟩
    rw [hcp] at h1
    cases h1
  simp only [pairCandidate, hpe, Bool.true_or, if_true]

lemma pairCandidate_erase {cfg : Config} {cap cap2 job job2 : Rec}
    (hcp : cfg.checkPerson = false)
    (hc : erasePerson cap = erasePerson cap2)
    (hj : erasePerson job = erasePerson job2) :
    (pairCandidate cfg cap job).map (Option.map eraseCandPerson) =
    (pairCandidate cfg cap2 job2).map (Option.map eraseCandPerson) := by
  obtain ⟨hidx, hdate, hamt, hdesc, hcard⟩ := erasePerson_inj_fields hc
  obtain ⟨hidx2, hdate2, hamt2, hdesc2, hcard2⟩ := erasePerson_inj_fields hj
  rw [pairCandidate_off hcp cap job, pairCandidate_off hcp cap2 job2]
  rw [hidx, hdate, hamt, hdesc, hcard, hidx2, hdate2, hamt2, hdesc2]
  by_cases htol : (cap2.date - job2.date).natAbs ≤ cfg.toleranceDays ∧
      |cap2.amount - job2.amount| ≤ cfg.toleranceAmount
  · rw [if_pos htol, if_pos htol]
    rcases hq : calcMatchQuality cfg (cap2.date - job2.date).natAbs
        |cap2.amount - job2.amount| 1 with _ | q
    · rfl
    · rfl
  · rw [if_neg htol, if_neg htol]

lemma genRow_erase {cfg : Config} (hcp : cfg.checkPerson = false)
    {cap cap2 : Rec} (hc : erasePerson cap = erasePerson cap2) :
    ∀ {jobs jobs2 : List Rec},
      jobs.map erasePerson = jobs2.map erasePerson →
      (genRow cfg cap jobs).map (List.map eraseCandPerson) =
      (genRow cfg cap2 jobs2).map (List.map eraseCandPerson) := by
  intro jobs
  induction jobs with
  | nil =>
    intro jobs2 hj
    cases jobs2 with
    | nil => rfl
    | cons j2 t2 => simp at hj
  | cons job t ih =>
    intro jobs2 hj
    cases jobs2 with
    | nil => simp at hj
    | cons job2 t2 =>
      rw [List.map_cons, List.map_cons] at hj
      injection hj with hj1 hj2
      have hpair := pairCandidate_erase hcp hc hj1
      unfold genRow
      rcases hp1 : pairCandidate cfg cap job with e1 | o1 <;>
        rcases hp2 : pairCandidate cfg cap2 job2 with e2 | o2
      · cases e1
        cases e2
        rfl
      · rw [hp1, hp2] at hpair
        simp [Except.map] at hpair
      · rw [hp1, hp2] at hpair
        simp [Except.map] at hpair
      · rw [hp1, hp2] at hpair
        simp only [Except.map] at hpair
        injection hpair with hpair
        rcases o1 with _ | c1 <;> rcases o2 with _ | c2
        · exact ih hj2
        · simp at hpair
        · simp at hpair
        · simp only [Option.map] at hpair
          injection hpair with hcc
          have ihr := ih hj2
          rcases hr1 : genRow cfg cap t with e1 | rest1 <;>
            rcases hr2 : genRow cfg cap2 t2 with e2 | rest2
          · cases e1
            cases e2
            rfl
          · rw [hr1, hr2] at ihr
            simp [Except.map] at ihr
          · rw [hr1, hr2] at ihr
            simp [Except.map] at ihr
          · rw [hr1, hr2] at ihr
            simp only [Except.map] at ihr
            injection ihr with ihr
            simp only [Except.map, List.map_cons]
            rw [hcc, ihr]

lemma genCandidates_erase {cfg : Config} (hcp : cfg.checkPerson = false) :
    ∀ {caps caps2 jobs jobs2 : List Rec},
      caps.map erasePerson = caps2.map erasePerson →
      jobs.map erasePerson = jobs2.map erasePerson →
      (genCandidates cfg caps jobs).map (List.map eraseCandPerson) =
      (genCandidates cfg caps2 jobs2).map (List.map eraseCandPerson) := by
  intro caps
  induction caps with
  | nil =>
    intro caps2 jobs jobs2 hc hj
    cases caps2 with
    | nil => rfl
    | cons c2 t2 => simp at hc
  | cons cap t ih =>
    intro caps2 jobs jobs2 hc hj
    cases caps2 with
    | nil => simp at hc
    | cons cap2 t2 =>
      rw [List.map_cons, List.map_cons] at hc
      injection hc with hc1 hc2
      have hrow := genRow_erase hcp hc1 hj
      unfold genCandidates
      rcases hr1 : genRow cfg cap jobs with e1 | row1 <;>
        rcases hr2 : genRow cfg cap2 jobs2 with e2 | row2
      · cases e1
        cases e2
        rfl
      · rw [hr1, hr2] at hrow
        simp [Except.map] at hrow
      · rw [hr1, hr2] at hrow
        simp [Except.map] at hrow
      · rw [hr1, hr2] at hrow
        simp only [Except.map] at hrow
        injection hrow with hrow
        have ihr := ih hc2 hj
        rcases hg1 : genCandidates cfg t jobs with e1 | rest1 <;>
          rcases hg2 : genCandidates cfg t2 jobs2 with e2 | rest2
        · cases e1
          cases e2
          rfl
        · rw [hg1, hg2] at ihr
          simp [Except.map] at ihr
        · rw [hg1, hg2] at ihr
          simp [Except.map] at ihr
        · rw [hg1, hg2] at ihr
          simp only [Except.map] at ihr
          injection ihr with ihr
          simp only [Except.map, List.map_append]
          rw [hrow, ihr]

lemma eraseCandPerson_matchQuality (c : Candidate) :
    (eraseCandPerson c).matchQuality = c.matchQuality := rfl

lemma eraseCandPerson_capIdx (c : Candidate) :
    (eraseCandPerson c).capIdx = c.capIdx := rfl

lemma eraseCandPerson_jobIdx (c : Candidate) :
    (eraseCandPerson c).jobIdx = c.jobIdx := rfl

lemma insertCand_map_erase (c : Candidate) (l : List Candidate) :
    insertCand (eraseCandPerson c) (l.map eraseCandPerson) =
      (insertCand c l).map eraseCandPerson := by
  induction l with
  | nil => rfl
  | cons d ds ih =>
    rw [List.map_cons]
    unfold insertCand
    simp only [eraseCandPerson_matchQuality]
    by_cases h : d.matchQuality ≤ c.matchQuality
    · rw [if_pos h, if_pos h]
      rfl
    · rw [if_neg h, if_neg h]
      rw [List.map_cons, ih]

lemma sortCands_map_erase (l : List Candidate) :
    sortCands (l.map eraseCandPerson) = (sortCands l).map eraseCandPerson := by
  induction l with
  | nil => rfl
  | cons c cs ih =>
    rw [List.map_cons]
    show insertCand (eraseCandPerson c) (sortCands (cs.map eraseCandPerson)) = _
    rw [ih, insertCand_map_erase]
    rfl

lemma greedy_map_erase :
    ∀ (l : List Candidate) (u v : List ℕ),
      greedy (l.map eraseCandPerson) u v = (greedy l u v).map eraseCandPerson := by
  intro l
  induction l with
  | nil =>
    intro u v
    rfl
  | cons d ds ih =>
    intro u v
    rw [List.map_cons]
    unfold greedy
    simp only [eraseCandPerson_capIdx, eraseCandPerson_jobIdx]
    by_cases h : d.capIdx ∈ u ∨ d.jobIdx ∈ v
    · rw [if_pos h, if_pos h]
      exact ih u v
    · rw [if_neg h, if_neg h]
      rw [ih (d.capIdx :: u) (d.jobIdx :: v), List.map_cons]

/-- C10: with `check_person` off, the whole reconciliation output is
independent of every person field: two runs whose inputs agree after
blanking the person columns produce, after blanking the candidates'
person display fields, identical results — same success/failure, same
matched index pairs, same deltas and qualities, in the same order. -/
theorem claim10_person_noninterference (cfg : Config)
    (caps caps2 jobs jobs2 : List Rec) (hcp : cfg.checkPerson = false)
    (hc : caps.map erasePerson = caps2.map erasePerson)
    (hj : jobs.map erasePerson = jobs2.map erasePerson) :
    (findMatches cfg caps jobs).map (List.map eraseCandPerson) =
    (findMatches cfg caps2 jobs2).map (List.map eraseCandPerson) := by
  have hgen := genCandidates_erase hcp hc hj
  unfold findMatches
  rcases h1 : genCandidates cfg caps jobs with e1 | cands1 <;>
    rcases h2 : genCandidates cfg caps2 jobs2 with e2 | cands2
  · cases e1
    cases e2
    rfl
  · rw [h1, h2] at hgen
    simp [Except.map] at hgen
  · rw [h1, h2] at hgen
    simp [Except.map] at hgen
  · rw [h1, h2] at hgen
    simp only [Except.map] at hgen
    injection hgen with hgen
    simp only [Except.map]
    rw [← greedy_map_erase, ← greedy_map_erase, ← sortCands_map_erase,
      ← sortCands_map_erase, hgen]

/-- Witness for C10: two concrete runs differing only in person names. -/
theorem claim10_witness :
    (findMatches exCfg [exCap] [exJob]).map (List.map eraseCandPerson) =
    (findMatches exCfg [⟨0, 0, 100, "w", "X", "N/A"⟩]
      [⟨0, 0, 100, "w", "Y", "N/A"⟩]).map (List.map eraseCandPerson) :=
  claim10_person_noninterference exCfg [exCap] [⟨0, 0, 100, "w", "X", "N/A"⟩]
    [exJob] [⟨0, 0, 100, "w", "Y", "N/A"⟩] rfl (by rfl) (by rfl)

end Reconciler
